import Mathlib

/-!
Verification development for the GetRealityDomain scanner (Go sources:
`utils.go`, `scanner.go`, `output.go`, `main.go`).

The Go code is shallowly embedded:

* `net.IP` values are byte lists (`List Nat`, each entry `< 256`, big-endian),
  exactly the slice the Go code manipulates; where a loop only needs the
  big-endian integer value of an address we also keep a value-level mirror and
  prove the two agree (`NextIP_eq_nextIPVal`).
* `math/big` integers are `Nat` / `Int`; `big.Int.Bytes` returns the minimal
  big-endian representation of the absolute value, which is `natToBytes`.
* Goroutines that feed a channel are modelled as fuel-indexed list producers:
  the produced list is the sequence of channel sends, and a boolean flag
  records whether the goroutine stopped by itself (loop exhausted or panic)
  within the given fuel.
* Network and OS effects (TCP dial, TLS handshake, certificate contents, the
  Cloudflare HTTP probe, ping, DNS, geo lookup) are oracle parameters: the
  embedded functions are the pure Go control flow over those oracle answers.
* Go strings are Lean `String`s; the CSV layer, which has to reason about
  character-level splitting, works on `List Char`.
-/

namespace GetRealityDomain

/-! ## IP arithmetic (`utils.go`: `NextIP`) -/

/-- Big-endian byte-list to natural number, the reading performed by
`big.NewInt(0).SetBytes(ip)`. -/
def bytesToNat (bs : List Nat) : Nat :=
  bs.foldl (fun acc b => acc * 256 + b) 0

/-- Minimal big-endian byte representation of a natural number, the output of
`big.Int.Bytes()` (the zero integer yields the empty slice). -/
def natToBytes (n : Nat) : List Nat :=
  if h : n = 0 then []
  else natToBytes (n / 256) ++ [n % 256]
decreasing_by exact Nat.div_lt_self (Nat.pos_of_ne_zero h) (by norm_num)

/-- `append(make([]byte, w-len(b)), b...)`: left-pad with zero bytes to width
`w`.  When `len(b) > w` the Go expression `make([]byte, w-len(b))` is a
`make` with negative length and panics; the panic is modelled as `none`. -/
def padBytes (w : Nat) (b : List Nat) : Option (List Nat) :=
  if b.length ≤ w then some (List.replicate (w - b.length) 0 ++ b) else none

/-- `NextIP` from `utils.go`: convert the address to a big integer, add or
subtract one, convert back and restore the byte width (width 4 when the input
has length 4, width 16 otherwise — the Go code's `if len(ip) == 4` / `else`).
`big.Int.Bytes` returns the magnitude, so decrementing the zero address yields
the integer 1.  `none` models the panic of the negative-length pad. -/
def NextIP (ip : List Nat) (increment : Bool) : Option (List Nat) :=
  let v := bytesToNat ip
  let v' := if increment then v + 1 else (if v = 0 then 1 else v - 1)
  padBytes (if ip.length = 4 then 4 else 16) (natToBytes v')

/-- The value of `NextIP(ip, false)`: `big.Int.Bytes` returns the
magnitude, so decrementing the zero address yields 1; decrement never
panics. -/
def ipDecVal (v : Nat) : Nat :=
  if v = 0 then 1 else v - 1

/-- Value-level mirror of `NextIP` for an address of byte width `w`:
increment panics (returns `none`) exactly when the value overflows
`2^(8*w)`; decrement is the total `ipDecVal`.  `NextIP_eq_nextIPVal` below
proves the agreement with the byte-level `NextIP`. -/
def nextIPVal (w : Nat) (v : Nat) (increment : Bool) : Option Nat :=
  if increment then
    (if v + 1 < 2 ^ (8 * w) then some (v + 1) else none)
  else
    some (ipDecVal v)

/-- Fixed-width big-endian encoding: `natToBytes` left-padded to width `w`. -/
def natToBytesPadded (w : Nat) (v : Nat) : List Nat :=
  List.replicate (w - (natToBytes v).length) 0 ++ natToBytes v

/-! ## Usability predicate (`utils.go`: `isValidIP`) -/

/-- Value-level `isValidIP` for an address of byte width `w` and value `v`
(`utils.go`), mirroring `net.IP.IsLoopback` and `net.IP.IsMulticast`: a
4-byte address, or a 16-byte IPv4-mapped address (`::ffff:a.b.c.d`), is
tested on its first IPv4 octet (loopback `127`, multicast `224..239`);
any other 16-byte address is tested against `::1` and the `ff00::/8`
multicast block.  The `ip == nil` guard of the source cannot arise in the
value model. -/
def isValidIP (w v : Nat) : Bool :=
  let v4First : Option Nat :=
    if w = 4 then some (v / 2 ^ 24 % 256)
    else if w = 16 ∧ v / 2 ^ 32 = 65535 then some (v / 2 ^ 24 % 256)
    else none
  match v4First with
  | some b0 =>
    if b0 = 127 then false
    else if 224 ≤ b0 ∧ b0 ≤ 239 then false
    else true
  | none =>
    if v = 1 then false
    else if v / 2 ^ 120 % 256 = 255 then false
    else true

/-! ## Targets and the CIDR enumerator (`utils.go`: `expandCIDR`, `IterateCIDR`) -/

/-- `HostType` constants of `scanner.go`. -/
inductive HostType where
  | IP
  | CIDR
  | Domain
deriving DecidableEq, Repr

/-- The `Host` record of `scanner.go`; the address is its big-endian integer
value, `none` standing for a nil `net.IP` (CIDR and domain hosts). -/
structure Host where
  ip : Option Nat
  origin : String
  type : HostType
deriving DecidableEq, Repr

/-- Application of the CIDR mask at value level: clear the low
`8*w - ones` host bits. -/
def maskVal (w ones v : Nat) : Nat :=
  v / 2 ^ (8 * w - ones) * 2 ^ (8 * w - ones)

/-- `net.IPNet.Contains`: the candidate, masked, equals the stored (already
masked by `net.ParseCIDR`) network address. -/
def cidrContains (w ones netv v : Nat) : Bool :=
  decide (maskVal w ones v = netv)

/-- The `for` loop shared verbatim by `expandCIDR` and `IterateCIDR`
(`utils.go`): while the current address is contained in the network, and
fewer than `maxHosts = 65536` hosts have been emitted, emit a `Host`
carrying the CIDR string as origin and step to the next address.  The
`none` branch of `nextIPVal` is the `NextIP` panic on the all-ones
address: the goroutine dies and nothing more is sent.  `fuel` bounds the
recursion; the `count` guard makes 65 537 enough for every run. -/
def cidrLoop (w ones netv : Nat) (origin : String) (ip count fuel : Nat) : List Host :=
  match fuel with
  | 0 => []
  | fuel' + 1 =>
    if cidrContains w ones netv ip then
      if count < 65536 then
        { ip := some ip, origin := origin, type := HostType.IP } ::
          (match nextIPVal w ip true with
            | none => []
            | some ip2 => cidrLoop w ones netv origin ip2 (count + 1) fuel')
      else []
    else []

/-- `expandCIDR` / `IterateCIDR`: start from (a copy of) the masked network
address with `count = 0`. -/
def expandCIDR (w ones netv : Nat) (origin : String) : List Host :=
  cidrLoop w ones netv origin netv 0 65537

/-! ## The seed enumerator (`utils.go`: `IterateAddr`) -/

/-- `math.MaxInt` on a 64-bit platform, the bound of the `IterateAddr`
loop counter. -/
def maxInt : Nat := 9223372036854775807

/-- A fuelled run of the `IterateAddr` goroutine loop, starting at loop
counter `i` with the two cursors at `low` and `high`.  Returns
`(candidates, emitted, ended)`:

* `candidates` — the address produced by the `NextIP` step of each
  iteration, in order, before the `isValidIP` filter is consulted;
* `emitted` — the hosts actually sent to the channel (a candidate rejected
  by `isValidIP` is skipped by `continue`; the cursor keeps its stepped
  position either way, exactly as in the source);
* `ended` — whether the goroutine stopped by itself within the given fuel:
  either the loop counter reached `math.MaxInt` (the `for` loop exits and
  the deferred `close` runs), or the upward `NextIP` panicked on the
  all-ones address.  The downward step `NextIP(lowIP, false)` never
  panics, which is why it appears as the total `ipDecVal`. -/
def iterateAddrAux (w : Nat) (origin : String) (low high i fuel : Nat) :
    List Nat × List Host × Bool :=
  match fuel with
  | 0 => ([], [], false)
  | fuel' + 1 =>
    if i < maxInt then
      if i % 2 = 0 then
        let low2 := ipDecVal low
        let rest := iterateAddrAux w origin low2 high (i + 1) fuel'
        (low2 :: rest.1,
          (if isValidIP w low2 then
            [{ ip := some low2, origin := origin, type := HostType.IP }]
          else []) ++ rest.2.1,
          rest.2.2)
      else
        match nextIPVal w high true with
        | none => ([], [], true)
        | some high2 =>
          let rest := iterateAddrAux w origin low high2 (i + 1) fuel'
          (high2 :: rest.1,
            (if isValidIP w high2 then
              [{ ip := some high2, origin := origin, type := HostType.IP }]
            else []) ++ rest.2.1,
            rest.2.2)
    else ([], [], true)

/-- `IterateAddr`: the parsed seed is sent unconditionally, then the
alternating expansion loop runs with both cursors at the seed.  Returns the
emitted stream (truncated to `fuel` loop iterations) and the self-ended
flag. -/
def IterateAddr (w : Nat) (origin : String) (s fuel : Nat) : List Host × Bool :=
  let rest := iterateAddrAux w origin s s 0 fuel
  ({ ip := some s, origin := origin, type := HostType.IP } :: rest.2.1, rest.2.2)

/-- Specification of the candidate stream of `iterateAddrAux` as a plain
alternation (used to state that filtering does not disturb the cursors):
one downward step on even counters, one upward step on odd counters. -/
def candFrom (low high i : Nat) : Nat → List Nat
  | 0 => []
  | n + 1 =>
    if i % 2 = 0 then
      ipDecVal low :: candFrom (ipDecVal low) high (i + 1) n
    else
      (high + 1) :: candFrom low (high + 1) (i + 1) n

/-! ## Domain grammar and host classification (`utils.go`: `ValidateDomainName`, `ParseHost`) -/

/-- `strings.Split` at a single character: always returns at least one
(possibly empty) piece. -/
def splitOnChar (c : Char) : List Char → List (List Char)
  | [] => [[]]
  | x :: xs =>
    match splitOnChar c xs with
    | [] => [[]]
    | h :: t => if x = c then [] :: h :: t else (x :: h) :: t

/-- One label of the domain regex of `ValidateDomainName`:
`[a-zA-Z0-9]([a-zA-Z0-9\-]{0,61}[a-zA-Z0-9])?` — 1 to 63 characters,
alphanumeric at both ends, alphanumerics and hyphens in between. -/
def validLabel : List Char → Bool
  | [] => false
  | c :: cs =>
    c.isAlphanum && decide ((c :: cs).length ≤ 63) &&
      (match cs.getLast? with
        | none => true
        | some d => d.isAlphanum && cs.dropLast.all fun x => x.isAlphanum || x = '-')

/-- `ValidateDomainName` (`utils.go`): length between 1 and 253, and the
anchored regex `label(\.label)*`.  Length is counted in characters; a
string on which this differs from Go's byte length contains non-ASCII
characters and fails the label alphabet on both sides. -/
def ValidateDomainName (domain : String) : Bool :=
  let cs := domain.toList
  if cs.length = 0 ∨ 253 < cs.length then false
  else (splitOnChar '.' cs).all validLabel

/-- `isValidRealityDomain` (`utils.go`): any non-empty string. -/
def isValidRealityDomain (domain : String) : Bool :=
  domain != ""

/-- Value of a decimal digit string. -/
def digitsVal (s : List Char) : Nat :=
  s.foldl (fun a c => a * 10 + (c.toNat - 48)) 0

/-- One dotted-decimal IPv4 field as accepted by `net.ParseIP` (modern Go
semantics): one to three digits, no leading zero, value at most 255. -/
def parseDecOctet (s : List Char) : Option Nat :=
  if s ≠ [] ∧ s.all Char.isDigit ∧ s.length ≤ 3 ∧ (s.head? = some '0' → s = ['0']) then
    (if digitsVal s ≤ 255 then some (digitsVal s) else none)
  else none

/-- `net.ParseIP` restricted to IPv4 dotted-decimal literals, returning the
32-bit value.  IPv6 literals are not modelled: the claims below exercise
only IPv4 literals and domain names, and an IPv6 literal contains `:` and
so also fails `ValidateDomainName`, leaving the `ParseHost` classification
of the relevant inputs unaffected. -/
def parseIPv4 (s : String) : Option Nat :=
  match splitOnChar '.' s.toList with
  | [a, b, c, d] => do
    let va ← parseDecOctet a
    let vb ← parseDecOctet b
    let vc ← parseDecOctet c
    let vd ← parseDecOctet d
    pure (va * 2 ^ 24 + vb * 2 ^ 16 + vc * 2 ^ 8 + vd)
  | _ => none

/-- `net.ParseCIDR` restricted to IPv4 `addr/ones`: returns the masked
network value and the prefix length. -/
def parseCIDRv4 (s : String) : Option (Nat × Nat) :=
  match splitOnChar '/' s.toList with
  | [addr, bits] => do
    let v ← parseIPv4 (String.mk addr)
    let ones ←
      (if bits ≠ [] ∧ bits.all Char.isDigit ∧ (bits.head? = some '0' → bits = ['0']) ∧
          digitsVal bits ≤ 32 then
        some (digitsVal bits)
      else none)
    pure (maskVal 4 ones v, ones)
  | _ => none

/-- `strings.TrimSpace`, on characters (the claims only feed it
whitespace-free input, where it is the identity on both sides). -/
def trimChars (hostStr : String) : String :=
  String.mk (((hostStr.toList.dropWhile Char.isWhitespace).reverse.dropWhile
    Char.isWhitespace).reverse)

/-- `ParseHost` (`utils.go`): trim, then try IP literal, CIDR, domain name,
in that order; `none` is the "无法解析主机" error. -/
def ParseHost (hostStr : String) : Option Host :=
  let s := trimChars hostStr
  match parseIPv4 s with
  | some v => some { ip := some v, origin := s, type := HostType.IP }
  | none =>
    if (parseCIDRv4 s).isSome then
      some { ip := none, origin := s, type := HostType.CIDR }
    else if ValidateDomainName s then
      some { ip := none, origin := s, type := HostType.Domain }
    else none

/-! ## The TLS probe and the feasibility classifier (`scanner.go`) -/

/-- The fields of an X.509 certificate read by `scanSingleIP`. -/
structure Cert where
  dnsNames : List String
  subjectCN : String
  issuerCN : String
  issuerOrgs : List String
deriving DecidableEq, Repr

/-- Oracle for everything the probe observes from the outside world, keyed
by the textual address being probed (or, for `cloudflareTrace` and
`pingExit`, by the domain handed to the side channel).  `cloudflareTrace`
already folds the HTTP status/body test of `DetectCloudflareCDN`;
`pingExit` is the exit status of the `ping` subprocess; `resolve` is
`ResolveDomain` (`.error` = resolution failure). -/
structure ProbeEnv where
  ipRender : Nat → String
  tcpErr : String → Option String
  tlsErr : String → Option String
  version : String → Nat
  alpn : String → String
  cipherSuite : String → Nat
  peerCerts : String → List Cert
  elapsedMs : String → Nat
  geoCode : String → String
  cloudflareTrace : String → Bool
  pingExit : String → Bool
  resolve : String → Except String (List String)

/-- The `ScanResult` record of `scanner.go`. -/
structure ScanResult where
  IP : String
  Origin : String
  Port : Nat
  CertDomain : String
  CertIssuer : String
  TLSVersion : String
  ALPN : String
  Curve : String
  GeoCode : String
  Feasible : Bool
  ResponseTime : Nat
  Error : String
deriving DecidableEq, Repr, Inhabited

def RequiredTLSVersion : String := "TLS 1.3"

def RequiredALPN : String := "h2"

def RequiredCurve : String := "X25519"

/-- Lower-case hexadecimal digit. -/
def hexDigitChar (n : Nat) : Char :=
  if n < 10 then Char.ofNat (48 + n) else Char.ofNat (87 + n)

/-- `fmt.Sprintf("Unknown(0x%04x)", v)` for a `uint16` value. -/
def unknownVersionString (v : Nat) : String :=
  "Unknown(0x" ++ String.mk [hexDigitChar (v / 4096 % 16), hexDigitChar (v / 256 % 16),
    hexDigitChar (v / 16 % 16), hexDigitChar (v % 16)] ++ ")"

/-- `getTLSVersionString` (`scanner.go`); the numeric cases are
`tls.VersionTLS10 = 0x0301` through `tls.VersionTLS13 = 0x0304`. -/
def getTLSVersionString (version : Nat) : String :=
  if version = 769 then "TLS 1.0"
  else if version = 770 then "TLS 1.1"
  else if version = 771 then "TLS 1.2"
  else if version = 772 then "TLS 1.3"
  else unknownVersionString version

/-- `getCurveString` (`scanner.go`): the configuration pins X25519, so the
cipher-suite argument is ignored and the constant is returned. -/
def getCurveString (_cipherSuite : Nat) : String :=
  "X25519"

/-- The `ServerName` installed in the `tls.Config` by `scanSingleIP`: it is
initialised to `origin` and then reassigned — to `origin` when
`ValidateDomainName origin` holds, to the empty string otherwise. -/
def scanSNI (origin : String) : String :=
  if ValidateDomainName origin then origin else ""

/-- `DetectCloudflareCDN` (`scanner.go`): the empty domain is never
Cloudflare; otherwise the verdict of the `/cdn-cgi/trace` probe. -/
def DetectCloudflareCDN (env : ProbeEnv) (domain : String) : Bool :=
  if domain = "" then false
  else env.cloudflareTrace domain

/-- `pingDomain` (`scanner.go`): exit status of `ping -c 3 -W 5 domain`. -/
def pingDomain (env : ProbeEnv) (domain : String) : Bool :=
  env.pingExit domain

/-- `CheckDomainConnectivity` (`scanner.go`).  `pingFlag` is the global
`scanControl.PingDomain`. -/
def CheckDomainConnectivity (env : ProbeEnv) (pingFlag : Bool) (domain : String) : Bool :=
  if ¬ pingFlag then true
  else if domain = "" ∨ (parseIPv4 domain).isSome then false
  else if ¬ ValidateDomainName domain then false
  else pingDomain env domain

/-- `strings.Join(names, ",")`. -/
def joinComma (l : List String) : String :=
  String.intercalate "," l

/-- `ScanResult.IsRealityFeasible` (`scanner.go`): the short-circuit chain
of the classifier, in source order.  The Cloudflare and connectivity checks
receive `sr.CertDomain` — the comma-joined SAN string — exactly as in the
source. -/
def IsRealityFeasible (env : ProbeEnv) (pingFlag : Bool) (sr : ScanResult) : Bool :=
  if sr.TLSVersion ≠ RequiredTLSVersion then false
  else if sr.ALPN ≠ RequiredALPN then false
  else if sr.Curve ≠ RequiredCurve then false
  else if sr.CertDomain = "" then false
  else if ¬ isValidRealityDomain sr.CertDomain then false
  else if sr.CertIssuer = "" then false
  else if DetectCloudflareCDN env sr.CertDomain then false
  else if pingFlag ∧ ¬ CheckDomainConnectivity env pingFlag sr.CertDomain then false
  else true

/-- The first SAN: the comma-joined `cert_sans` string up to the first
comma. -/
def firstSAN (certDomain : String) : String :=
  String.mk (certDomain.toList.takeWhile fun c => c ≠ ',')

/-- The classifier as the specification words it (steps 7 and 8 applied to
the *first SAN*), kept solely for comparison against the source-derived
`IsRealityFeasible`; the two differ only in the argument of the Cloudflare
and connectivity checks. -/
def IsRealityFeasibleSpec (env : ProbeEnv) (pingFlag : Bool) (sr : ScanResult) : Bool :=
  if sr.TLSVersion ≠ RequiredTLSVersion then false
  else if sr.ALPN ≠ RequiredALPN then false
  else if sr.Curve ≠ RequiredCurve then false
  else if sr.CertDomain = "" then false
  else if ¬ isValidRealityDomain sr.CertDomain then false
  else if sr.CertIssuer = "" then false
  else if DetectCloudflareCDN env (firstSAN sr.CertDomain) then false
  else if pingFlag ∧ ¬ CheckDomainConnectivity env pingFlag (firstSAN sr.CertDomain) then false
  else true

/-- The `ScanResult` skeleton built at the top of `scanSingleIP` (the geo
lookup fills `GeoCode` immediately after). -/
def emptyResult (ip origin : String) (port : Nat) (geo : String) : ScanResult :=
  { IP := ip, Origin := origin, Port := port, CertDomain := "", CertIssuer := "",
    TLSVersion := "", ALPN := "", Curve := "", GeoCode := geo, Feasible := false,
    ResponseTime := 0, Error := "" }

/-- `scanSingleIP` (`scanner.go`), returning the single result sent to the
channel.  The certificate extraction is written as two field computations;
they produce exactly the values of the source's assignment chain
(`CertDomain`: joined `DNSNames`, else Subject CN, else empty;
`CertIssuer`: Issuer CN, else first Issuer Organization, else empty). -/
def scanSingleIP (env : ProbeEnv) (pingFlag : Bool) (ip origin : String) (port : Nat) :
    ScanResult :=
  let base := emptyResult ip origin port (env.geoCode ip)
  match env.tcpErr ip with
  | some e => { base with Error := "TCP连接失败: " ++ e }
  | none =>
    match env.tlsErr ip with
    | some e => { base with Error := "TLS握手失败: " ++ e }
    | none =>
      let certDomain :=
        match env.peerCerts ip with
        | [] => ""
        | cert :: _ =>
          if cert.dnsNames ≠ [] then joinComma cert.dnsNames
          else if cert.subjectCN ≠ "" then cert.subjectCN
          else ""
      let certIssuer :=
        match env.peerCerts ip with
        | [] => ""
        | cert :: _ =>
          if cert.issuerCN ≠ "" then cert.issuerCN
          else
            match cert.issuerOrgs with
            | o :: _ => o
            | [] => ""
      let probed := { base with
        ResponseTime := env.elapsedMs ip,
        TLSVersion := getTLSVersionString (env.version ip),
        ALPN := env.alpn ip,
        Curve := getCurveString (env.cipherSuite ip),
        CertDomain := certDomain,
        CertIssuer := certIssuer }
      { probed with Feasible := IsRealityFeasible env pingFlag probed }

/-- `ScanTLS` (`scanner.go`): the list of results sent for one host.  An
IP-kind host always carries an address when produced by `ParseHost` or the
enumerators; the degenerate address-less case sends nothing. -/
def ScanTLS (env : ProbeEnv) (pingFlag : Bool) (port : Nat) (host : Host) :
    List ScanResult :=
  match host.type, host.ip with
  | HostType.IP, some v =>
    [scanSingleIP env pingFlag (env.ipRender v) host.origin port]
  | HostType.IP, none => []
  | HostType.Domain, _ =>
    match env.resolve host.origin with
    | Except.error e =>
      [{ emptyResult "" host.origin port "" with Error := "域名解析失败: " ++ e }]
    | Except.ok ips => ips.map fun ip => scanSingleIP env pingFlag ip host.origin port
  | HostType.CIDR, _ =>
    [{ emptyResult "" host.origin port "" with Error := "不支持的主机类型" }]

/-! ## The result sink (`output.go`: `ProcessResults`) -/

/-- The body of the `for result := range resultChan` loop of
`ProcessResults`, with the three counters as accumulators.  Every received
record is written (the CSV write is modelled as always succeeding); a
record with a non-empty error only bumps the error counter; a feasible
record bumps the feasible counter and, when `stopOnMax` holds and the
counter has reached `maxResults`, the loop breaks immediately after the
write.  Returns the written records and the final
`(total, feasible, error)` counters. -/
def processLoop (stopOnMax : Bool) (maxResults : Nat)
    (totalCount feasibleCount errorCount : Nat) :
    List ScanResult → List ScanResult × Nat × Nat × Nat
  | [] => ([], totalCount, feasibleCount, errorCount)
  | r :: rest =>
    let total := totalCount + 1
    if r.Error ≠ "" then
      let res := processLoop stopOnMax maxResults total feasibleCount (errorCount + 1) rest
      (r :: res.1, res.2)
    else if r.Feasible then
      if stopOnMax ∧ maxResults ≤ feasibleCount + 1 then
        ([r], total, feasibleCount + 1, errorCount)
      else
        let res := processLoop stopOnMax maxResults total (feasibleCount + 1) errorCount rest
        (r :: res.1, res.2)
    else
      let res := processLoop stopOnMax maxResults total feasibleCount errorCount rest
      (r :: res.1, res.2)

/-- `ProcessResults` over a finite result stream.  `stopOnMax` and
`maxResults` are the globals `scanControl.StopOnMax` and
`scanControl.MaxResults`. -/
def ProcessResults (stopOnMax : Bool) (maxResults : Nat) (results : List ScanResult) :
    List ScanResult × Nat × Nat × Nat :=
  processLoop stopOnMax maxResults 0 0 0 results

/-! ## CSV emission (`output.go`) and the naive loader (`main.go`) -/

/-- `unicode.IsSpace` restricted to Latin-1 (space, tab, LF, VT, FF, CR,
NEL, NBSP); the theorems below only apply it to ASCII text, where it
coincides with Go's predicate. -/
def isUnicodeSpaceChar (c : Char) : Bool :=
  c == ' ' || c == '\t' || c == '\n' || c.toNat == 11 || c.toNat == 12 ||
    c == '\r' || c.toNat == 133 || c.toNat == 160

/-- `encoding/csv.Writer.fieldNeedsQuotes` with the default comma: empty
fields are bare; the literal `\.`, any field containing a comma, quote, CR
or LF, and any field starting with white space are quoted. -/
def fieldNeedsQuotes (f : List Char) : Bool :=
  if f = [] then false
  else if f = ['\\', '.'] then true
  else if decide (',' ∈ f) || decide ('"' ∈ f) || decide ('\r' ∈ f) || decide ('\n' ∈ f) then
    true
  else
    match f.head? with
    | some c => isUnicodeSpaceChar c
    | none => false

/-- Double every quote, the escaping used inside a quoted CSV field. -/
def escapeQuotes : List Char → List Char
  | [] => []
  | c :: cs => if c = '"' then '"' :: '"' :: escapeQuotes cs else c :: escapeQuotes cs

/-- One emitted CSV field.  (Go additionally rewrites CR/LF inside quoted
fields depending on `UseCRLF`; the theorems below keep CR and LF out of
fields, where the two renderings agree.) -/
def csvField (f : List Char) : List Char :=
  if fieldNeedsQuotes f then '"' :: (escapeQuotes f ++ ['"'])
  else f

/-- Comma-join of the rendered fields. -/
def joinSep (sep : List Char) : List (List Char) → List Char
  | [] => []
  | [f] => f
  | f :: g :: t => f ++ sep ++ joinSep sep (g :: t)

/-- One emitted CSV record line (without the terminator). -/
def csvLine (fields : List (List Char)) : List Char :=
  joinSep [','] (fields.map csvField)

/-- The 13-column header written by `NewCSVWriter`. -/
def headerFields : List (List Char) :=
  ["IP", "ORIGIN", "PORT", "CERT_DOMAIN", "CERT_ISSUER", "TLS_VERSION", "ALPN",
    "CURVE", "GEO_CODE", "FEASIBLE", "RESPONSE_TIME_MS", "ERROR", "SCAN_TIME"].map
    String.toList

/-- The file content produced by `NewCSVWriter` followed by one
`WriteResult` per row: header line first, `\n` after every line. -/
def writeCSVContent (rows : List (List (List Char))) : List Char :=
  (csvLine headerFields ++ ['\n']) ++ (rows.map fun r => csvLine r ++ ['\n']).flatten

/-- The 13 record fields of `WriteResult` for one result: `strconv.Itoa`
and `FormatInt` are decimal rendering, `FormatBool` is `true`/`false`, and
`scanTime` stands for the `time.Now()` timestamp string. -/
def recordFields (r : ScanResult) (scanTime : String) : List (List Char) :=
  [r.IP.toList, r.Origin.toList, (toString r.Port).toList, r.CertDomain.toList,
    r.CertIssuer.toList, r.TLSVersion.toList, r.ALPN.toList, r.Curve.toList,
    r.GeoCode.toList, (if r.Feasible then "true" else "false").toList,
    (toString r.ResponseTime).toList, r.Error.toList, scanTime.toList]

/-- `bufio.ScanLines` drops one trailing CR from each line. -/
def dropTrailingCR (l : List Char) : List Char :=
  if l.getLast? = some '\r' then l.dropLast else l

/-- The token stream of a `bufio.Scanner` with the default split: lines
separated by `\n`, no empty token after a final `\n`, one trailing CR
stripped per line. -/
def scanLines (content : List Char) : List (List Char) :=
  let ls := splitOnChar '\n' content
  (if ls.getLast? = some [] then ls.dropLast else ls).map dropTrailingCR

/-- `loadFeasibleResults` (`main.go`): skip the header line, split every
following line at every comma — with no regard for CSV quoting — and keep
the part lists with at least 10 parts whose part 9 is `true`. -/
def loadFeasibleResults (content : List Char) : List (List (List Char)) :=
  let dataLines := (scanLines content).drop 1
  (dataLines.map fun l => splitOnChar ',' l).filter fun parts =>
    decide (10 ≤ parts.length) && decide (parts.getD 9 [] = "true".toList)

/-- A CSV field on which the naive comma-split loader is lossless: ASCII,
no comma, quote, CR or LF, no leading white space, and not the literal
`\.` — precisely the fields the CSV writer emits bare. -/
def plainField (f : List Char) : Bool :=
  f.all (fun c => c.toNat < 128) && !(decide (',' ∈ f)) && !(decide ('"' ∈ f)) &&
    !(decide ('\r' ∈ f)) && !(decide ('\n' ∈ f)) &&
    (match f.head? with
      | some c => !(isUnicodeSpaceChar c)
      | none => true) &&
    !(f == ['\\', '.'])

/-! ## Concrete probe environments for the closed instances below -/

/-- A fully successful handshake: TLS 1.3 (`0x0304`), ALPN `h2`, a leaf
certificate with one SAN and an issuer CN, no Cloudflare, ping fine. -/
def envBase : ProbeEnv where
  ipRender := fun v => toString v
  tcpErr := fun _ => none
  tlsErr := fun _ => none
  version := fun _ => 772
  alpn := fun _ => "h2"
  cipherSuite := fun _ => 4865
  peerCerts := fun _ =>
    [{ dnsNames := ["good.example.test"], subjectCN := "", issuerCN := "Test CA",
       issuerOrgs := [] }]
  elapsedMs := fun _ => 12
  geoCode := fun _ => "US"
  cloudflareTrace := fun _ => false
  pingExit := fun _ => true
  resolve := fun _ => Except.ok ["192.0.2.7"]

/-- Like `envBase` but the leaf certificate carries two DNS names and the
Cloudflare trace probe answers `true` exactly on the comma-joined pair. -/
def envTwoSAN : ProbeEnv :=
  { envBase with
    peerCerts := fun _ =>
      [{ dnsNames := ["a.com", "b.com"], subjectCN := "", issuerCN := "Test CA",
         issuerOrgs := [] }],
    cloudflareTrace := fun d => d == "a.com,b.com" }

/-- Like `envTwoSAN` but the Cloudflare oracle differs away from the
comma-joined string. -/
def envTwoSANAlt : ProbeEnv :=
  { envTwoSAN with
    cloudflareTrace := fun d => d == "a.com,b.com" || d == "other.example" }

/-- The result the probe emits for the two-SAN certificate (ping check
disabled). -/
def rTwoSAN : ScanResult :=
  scanSingleIP envTwoSAN false "192.0.2.9" "192.0.2.9" 443

/-- A feasible probe result (all checks pass, ping disabled state mirrors a
successful probe). -/
def rFeasibleA : ScanResult :=
  { IP := "1.1.1.1", Origin := "o", Port := 443, CertDomain := "a.com",
    CertIssuer := "CA", TLSVersion := "TLS 1.3", ALPN := "h2", Curve := "X25519",
    GeoCode := "US", Feasible := true, ResponseTime := 10, Error := "" }

/-- An infeasible (TLS 1.2) probe result. -/
def rInfeasible : ScanResult :=
  { rFeasibleA with Feasible := false, TLSVersion := "TLS 1.2", IP := "2.2.2.2" }

/-- An errored probe result. -/
def rErrored : ScanResult :=
  { rInfeasible with Error := "TCP连接失败: x", IP := "3.3.3.3" }

/-- A second feasible probe result. -/
def rFeasibleB : ScanResult :=
  { rFeasibleA with IP := "4.4.4.4" }

/-- A feasible probe result whose `CertDomain` is a two-SAN comma join. -/
def rComma : ScanResult :=
  { rFeasibleA with CertDomain := "a.com,b.com", IP := "5.5.5.5" }

/-- A fixed `SCAN_TIME` stamp. -/
def tsW : String := "2024-01-02 03:04:05"

/-! ## Theorems: byte-level encoding facts -/

theorem natToBytes_zero : natToBytes 0 = [] := by
  rw [natToBytes]; simp

theorem natToBytes_pos {n : Nat} (h : n ≠ 0) :
    natToBytes n = natToBytes (n / 256) ++ [n % 256] := by
  rw [natToBytes]; simp [h]

/-- `natToBytes n` fits in `k` bytes iff `n < 2^(8*k)`. -/
theorem natToBytes_length_le {n k : Nat} (h : n < 2 ^ (8 * k)) :
    (natToBytes n).length ≤ k := by
  induction k generalizing n with
  | zero =>
    simp at h
    subst h
    simp [natToBytes_zero]
  | succ k ih =>
    by_cases hn : n = 0
    · simp [hn, natToBytes_zero]
    · rw [natToBytes_pos hn]
      have hdiv : n / 256 < 2 ^ (8 * k) := by
        rw [Nat.div_lt_iff_lt_mul (by norm_num : 0 < 256)]
        calc n < 2 ^ (8 * (k + 1)) := h
        _ = 2 ^ (8 * k) * 256 := by ring
      have := ih hdiv
      simp only [List.length_append, List.length_cons, List.length_nil]
      omega

theorem natToBytes_length_gt {n k : Nat} (h : 2 ^ (8 * k) ≤ n) :
    k < (natToBytes n).length := by
  induction k generalizing n with
  | zero =>
    have hn : n ≠ 0 := by
      intro h0; rw [h0] at h; simp at h
    rw [natToBytes_pos hn]
    simp
  | succ k ih =>
    have hn : n ≠ 0 := by
      intro h0; rw [h0] at h
      exact absurd h (Nat.not_le.mpr (by positivity))
    rw [natToBytes_pos hn]
    have hdiv : 2 ^ (8 * k) ≤ n / 256 := by
      rw [Nat.le_div_iff_mul_le (by norm_num : 0 < 256)]
      calc 2 ^ (8 * k) * 256 = 2 ^ (8 * (k + 1)) := by ring
      _ ≤ n := h
    have := ih hdiv
    simp only [List.length_append, List.length_cons, List.length_nil]
    omega

/-- Every byte emitted by `natToBytes` is `< 256`. -/
theorem natToBytes_bytes_lt {n : Nat} : ∀ b ∈ natToBytes n, b < 256 := by
  induction n using Nat.strong_induction_on with
  | _ n ih =>
    intro b hb
    by_cases hn : n = 0
    · rw [hn, natToBytes_zero] at hb; simp at hb
    · rw [natToBytes_pos hn] at hb
      rcases List.mem_append.1 hb with h | h
      · exact ih (n / 256) (Nat.div_lt_self (Nat.pos_of_ne_zero hn) (by norm_num)) b h
      · simp at h
        subst h
        exact Nat.mod_lt _ (by norm_num)

theorem bytesToNat_nil : bytesToNat [] = 0 := rfl

theorem bytesToNat_append_singleton (bs : List Nat) (b : Nat) :
    bytesToNat (bs ++ [b]) = bytesToNat bs * 256 + b := by
  simp [bytesToNat, List.foldl_append]

/-- Round trip: decoding the minimal encoding gives back the value. -/
theorem bytesToNat_natToBytes (n : Nat) : bytesToNat (natToBytes n) = n := by
  induction n using Nat.strong_induction_on with
  | _ n ih =>
    by_cases hn : n = 0
    · simp [hn, natToBytes_zero, bytesToNat_nil]
    · rw [natToBytes_pos hn, bytesToNat_append_singleton,
        ih (n / 256) (Nat.div_lt_self (Nat.pos_of_ne_zero hn) (by norm_num))]
      omega

theorem bytesToNat_replicate_zero_append (k : Nat) (bs : List Nat) :
    bytesToNat (List.replicate k 0 ++ bs) = bytesToNat bs := by
  induction k with
  | zero => simp
  | succ k ih =>
    rw [List.replicate_succ]
    simpa [bytesToNat] using ih

theorem bytesToNat_natToBytesPadded (w v : Nat) :
    bytesToNat (natToBytesPadded w v) = v := by
  rw [natToBytesPadded, bytesToNat_replicate_zero_append, bytesToNat_natToBytes]

theorem natToBytesPadded_length {w v : Nat} (h : v < 2 ^ (8 * w)) :
    (natToBytesPadded w v).length = w := by
  have := natToBytes_length_le h
  simp [natToBytesPadded]
  omega

theorem natToBytesPadded_bytes_lt {w v : Nat} :
    ∀ b ∈ natToBytesPadded w v, b < 256 := by
  intro b hb
  rcases List.mem_append.1 hb with h | h
  · have := List.eq_of_mem_replicate h
    omega
  · exact natToBytes_bytes_lt b h

/-- Decoded value of a byte list is bounded by its width. -/
theorem bytesToNat_lt {bs : List Nat} (h : ∀ b ∈ bs, b < 256) :
    bytesToNat bs < 2 ^ (8 * bs.length) := by
  induction bs using List.reverseRecOn with
  | nil => simp [bytesToNat_nil]
  | append_singleton bs b ih =>
    rw [bytesToNat_append_singleton]
    have hb : b < 256 := h b (by simp)
    have hbs := ih (fun x hx => h x (by simp [hx]))
    have : bytesToNat bs * 256 + b < (bytesToNat bs + 1) * 256 := by omega
    calc bytesToNat bs * 256 + b < (bytesToNat bs + 1) * 256 := this
    _ ≤ 2 ^ (8 * bs.length) * 256 := by
        exact Nat.mul_le_mul_right 256 hbs
    _ = 2 ^ (8 * (bs ++ [b]).length) := by
        simp [List.length_append]
        ring

/-- A well-formed byte list is exactly the padded encoding of its value. -/
theorem natToBytesPadded_bytesToNat {bs : List Nat} (h : ∀ b ∈ bs, b < 256) :
    natToBytesPadded bs.length (bytesToNat bs) = bs := by
  induction bs using List.reverseRecOn with
  | nil => simp [bytesToNat_nil, natToBytesPadded, natToBytes_zero]
  | append_singleton bs b ih =>
    have hb : b < 256 := h b (by simp)
    have hwf : ∀ x ∈ bs, x < 256 := fun x hx => h x (by simp [hx])
    rw [bytesToNat_append_singleton]
    by_cases hz : bytesToNat bs * 256 + b = 0
    · have hbs0 : bytesToNat bs = 0 := by omega
      have hb0 : b = 0 := by omega
      have hbs : List.replicate bs.length 0 = bs := by
        have := ih hwf
        simpa [hbs0, natToBytesPadded, natToBytes_zero] using this
      subst hb0
      rw [hz]
      calc natToBytesPadded (bs ++ [0]).length 0
          = List.replicate (bs.length + 1) 0 := by
            simp [natToBytesPadded, natToBytes_zero]
      _ = List.replicate bs.length 0 ++ [0] := List.replicate_succ' ..
      _ = bs ++ [0] := by rw [hbs]
    · rw [natToBytesPadded, natToBytes_pos hz]
      have hdiv : (bytesToNat bs * 256 + b) / 256 = bytesToNat bs := by
        omega
      have hmod : (bytesToNat bs * 256 + b) % 256 = b := by
        omega
      rw [hdiv, hmod]
      have hlen : (natToBytes (bytesToNat bs)).length ≤ bs.length :=
        natToBytes_length_le (bytesToNat_lt hwf)
      have hih := ih hwf
      rw [natToBytesPadded] at hih
      have harith : (bs ++ [b]).length - (natToBytes (bytesToNat bs) ++ [b]).length
          = bs.length - (natToBytes (bytesToNat bs)).length := by
        simp [List.length_append]
      rw [harith, ← List.append_assoc, hih]


/-! ## Theorems: `NextIP` agrees with its value-level mirror -/

theorem padBytes_natToBytes_of_lt {w v : Nat} (h : v < 2 ^ (8 * w)) :
    padBytes w (natToBytes v) = some (natToBytesPadded w v) := by
  rw [padBytes, if_pos (natToBytes_length_le h), natToBytesPadded]

theorem NextIP_eq_nextIPVal (ip : List Nat) (inc : Bool)
    (hwf : ∀ b ∈ ip, b < 256) (hlen : ip.length = 4 ∨ ip.length = 16) :
    NextIP ip inc = (nextIPVal ip.length (bytesToNat ip) inc).map (natToBytesPadded ip.length) := by
  have hw : (if ip.length = 4 then 4 else 16) = ip.length := by
    rcases hlen with h | h <;> simp [h]
  have hwpos : 4 ≤ ip.length := by rcases hlen with h | h <;> omega
  have hv : bytesToNat ip < 2 ^ (8 * ip.length) := bytesToNat_lt hwf
  have hbig : (2 : Nat) ≤ 2 ^ (8 * ip.length) := by
    calc (2 : Nat) = 2 ^ 1 := by norm_num
    _ ≤ 2 ^ (8 * ip.length) := Nat.pow_le_pow_right (by norm_num) (by omega)
  cases inc with
  | false =>
    have hdec : ipDecVal (bytesToNat ip) < 2 ^ (8 * ip.length) := by
      rw [ipDecVal]
      split <;> omega
    have h1 : NextIP ip false = padBytes ip.length (natToBytes (ipDecVal (bytesToNat ip))) := by
      simp [NextIP, hw, ipDecVal]
    have h2 : nextIPVal ip.length (bytesToNat ip) false = some (ipDecVal (bytesToNat ip)) := by
      simp [nextIPVal]
    rw [h1, h2, padBytes_natToBytes_of_lt hdec]
    simp
  | true =>
    have h1 : NextIP ip true = padBytes ip.length (natToBytes (bytesToNat ip + 1)) := by
      simp [NextIP, hw]
    by_cases hov : bytesToNat ip + 1 < 2 ^ (8 * ip.length)
    · rw [h1, show nextIPVal ip.length (bytesToNat ip) true = some (bytesToNat ip + 1) by
        simp [nextIPVal, hov]]
      rw [padBytes_natToBytes_of_lt hov]
      simp
    · rw [h1, show nextIPVal ip.length (bytesToNat ip) true = none by
        simp [nextIPVal, hov]]
      have hgt : ip.length < (natToBytes (bytesToNat ip + 1)).length :=
        natToBytes_length_gt (by omega)
      rw [padBytes, if_neg (by omega)]
      simp

/-- C6: incrementing then decrementing an address through the big-endian
big-integer arithmetic of `NextIP` returns the original address at the
original byte width, whenever the increment does not overflow the width. -/
theorem nextIP_up_down_roundtrip (ip : List Nat) (hwf : ∀ b ∈ ip, b < 256)
    (hlen : ip.length = 4 ∨ ip.length = 16)
    (hov : bytesToNat ip + 1 < 2 ^ (8 * ip.length)) :
    (NextIP ip true).bind (fun ip2 => NextIP ip2 false) = some ip := by
  rw [NextIP_eq_nextIPVal ip true hwf hlen]
  rw [show nextIPVal ip.length (bytesToNat ip) true = some (bytesToNat ip + 1) by
    simp [nextIPVal, hov]]
  have hwf2 : ∀ x ∈ natToBytesPadded ip.length (bytesToNat ip + 1), x < 256 :=
    natToBytesPadded_bytes_lt
  have hlen2 : (natToBytesPadded ip.length (bytesToNat ip + 1)).length = ip.length :=
    natToBytesPadded_length hov
  simp only [Option.map_some']
  show NextIP (natToBytesPadded ip.length (bytesToNat ip + 1)) false = some ip
  rw [NextIP_eq_nextIPVal _ false hwf2 (by rw [hlen2]; exact hlen)]
  rw [hlen2, bytesToNat_natToBytesPadded]
  rw [show nextIPVal ip.length (bytesToNat ip + 1) false = some (bytesToNat ip) by
    simp [nextIPVal, ipDecVal]]
  simpa using natToBytesPadded_bytesToNat hwf

/-- Witness for C6 at the concrete address `1.2.3.4`. -/
theorem nextIP_up_down_roundtrip_witness :
    (∀ b ∈ ([1, 2, 3, 4] : List Nat), b < 256) ∧
    (([1, 2, 3, 4] : List Nat).length = 4 ∨ ([1, 2, 3, 4] : List Nat).length = 16) ∧
    bytesToNat [1, 2, 3, 4] + 1 < 2 ^ (8 * ([1, 2, 3, 4] : List Nat).length) ∧
    (NextIP [1, 2, 3, 4] true).bind (fun ip2 => NextIP ip2 false) = some [1, 2, 3, 4] :=
  ⟨by decide, by decide, by decide,
    nextIP_up_down_roundtrip [1, 2, 3, 4] (by decide) (by decide) (by decide)⟩

/-- C10: `NextIP` is not total at the width boundary.  Incrementing the
all-ones 4-byte or 16-byte address produces a big-integer byte string one
byte longer than the input, so the width-restoring pad is a `make` with
negative length and the call panics (`none`); decrementing `0.0.0.0`
produces the magnitude of `-1`, that is `0.0.0.1`, not a wraparound. -/
theorem nextIP_boundary :
    NextIP (List.replicate 4 255) true = none ∧
    NextIP (List.replicate 16 255) true = none ∧
    NextIP [0, 0, 0, 0] false = some [0, 0, 0, 1] := by
  refine ⟨?_, ?_, ?_⟩
  · have hv : bytesToNat (List.replicate 4 255) = 4294967295 := by decide
    have h1 : NextIP (List.replicate 4 255) true = padBytes 4 (natToBytes 4294967296) := by
      norm_num [NextIP, hv]
    have hgt : 4 < (natToBytes 4294967296).length :=
      natToBytes_length_gt (by norm_num)
    rw [h1, padBytes, if_neg (by omega)]
  · have hv : bytesToNat (List.replicate 16 255) = 340282366920938463463374607431768211455 := by
      decide
    have h1 : NextIP (List.replicate 16 255) true =
        padBytes 16 (natToBytes 340282366920938463463374607431768211456) := by
      norm_num [NextIP, hv]
    have hgt : 16 < (natToBytes 340282366920938463463374607431768211456).length :=
      natToBytes_length_gt (by norm_num)
    rw [h1, padBytes, if_neg (by omega)]
  · have hv : bytesToNat [0, 0, 0, 0] = 0 := by decide
    have h1 : NextIP [0, 0, 0, 0] false = padBytes 4 (natToBytes 1) := by
      norm_num [NextIP, hv]
    have h2 : natToBytes 1 = [1] := by
      rw [natToBytes_pos (by norm_num)]
      norm_num [natToBytes_zero]
    rw [h1, h2, padBytes]
    decide

/-! ## Theorems: the CIDR enumerator -/

theorem nextIPVal_up_eq {w ip ip2 : Nat} (h : nextIPVal w ip true = some ip2) :
    ip2 = ip + 1 := by
  by_cases hov : ip + 1 < 2 ^ (8 * w)
  · simp [nextIPVal, hov] at h
    omega
  · simp [nextIPVal, hov] at h

theorem cidrLoop_spec (w ones netv : Nat) (origin : String) :
    ∀ fuel ip count, ∃ vals : List Nat,
      cidrLoop w ones netv origin ip count fuel =
        vals.map (fun v => { ip := some v, origin := origin, type := HostType.IP }) ∧
      vals.length ≤ 65536 - count ∧
      (∀ v ∈ vals, cidrContains w ones netv v = true) ∧
      List.Chain' (· < ·) vals ∧
      (∀ y, vals.head? = some y → y = ip) ∧
      (fuel ≠ 0 → count < 65536 → cidrContains w ones netv ip = true → vals ≠ []) := by
  intro fuel
  induction fuel with
  | zero =>
    intro ip count
    exact ⟨[], rfl, by simp, by simp, List.chain'_nil, by simp, by simp⟩
  | succ fuel ih =>
    intro ip count
    by_cases hc : cidrContains w ones netv ip = true
    · by_cases hcount : count < 65536
      · rcases hnext : nextIPVal w ip true with _ | ip2
        · refine ⟨[ip], ?_, ?_, ?_, ?_, ?_, ?_⟩
          · simp [cidrLoop, hc, hcount, hnext]
          · simp
            omega
          · intro v hv
            simp at hv
            subst hv
            exact hc
          · simp
          · intro y hy
            simpa using hy.symm
          · simp
        · obtain ⟨vals, hmap, hlen, hmem, hchain, hhead, _⟩ := ih ip2 (count + 1)
          have hip2 : ip2 = ip + 1 := nextIPVal_up_eq hnext
          refine ⟨ip :: vals, ?_, ?_, ?_, ?_, ?_, ?_⟩
          · simp only [cidrLoop, if_pos hc, if_pos hcount, hnext, hmap, List.map_cons]
          · simp
            omega
          · intro v hv
            rcases List.mem_cons.1 hv with h | h
            · subst h; exact hc
            · exact hmem v h
          · rw [List.chain'_cons']
            refine ⟨?_, hchain⟩
            intro y hy
            have := hhead y hy
            omega
          · intro y hy
            simpa using hy.symm
          · simp
      · refine ⟨[], ?_, by simp, by simp, List.chain'_nil, by simp, ?_⟩
        · simp [cidrLoop, hc, hcount]
        · intro _ hcount' _
          exact absurd hcount' hcount
    · refine ⟨[], ?_, by simp, by simp, List.chain'_nil, by simp, ?_⟩
      · simp [cidrLoop, hc]
      · intro _ _ h
        exact absurd h hc

/-- C4: for every CIDR network (well-formed: the stored network address is
already masked, as `net.ParseCIDR` guarantees), the enumerator emits at
most 65 536 targets; every emitted address is contained in the network;
the addresses are strictly ascending and start at the network address; and
every emitted target carries the CIDR string as origin. -/
theorem expandCIDR_spec (w ones netv : Nat) (origin : String)
    (hmask : maskVal w ones netv = netv) :
    ∃ vals : List Nat,
      expandCIDR w ones netv origin =
        vals.map (fun v => { ip := some v, origin := origin, type := HostType.IP }) ∧
      vals.length ≤ 65536 ∧
      (∀ v ∈ vals, cidrContains w ones netv v = true) ∧
      List.Chain' (· < ·) vals ∧
      vals.head? = some netv := by
  obtain ⟨vals, hmap, hlen, hmem, hchain, hhead, hne⟩ :=
    cidrLoop_spec w ones netv origin 65537 netv 0
  have hc : cidrContains w ones netv netv = true := by
    simp [cidrContains, hmask]
  have hnonempty : vals ≠ [] := hne (by norm_num) (by norm_num) hc
  refine ⟨vals, hmap, by simpa using hlen, hmem, hchain, ?_⟩
  rcases hvals : vals with _ | ⟨v0, rest⟩
  · exact absurd hvals hnonempty
  · have := hhead v0 (by simp [hvals])
    simp [this]

/-- Witness for C4 on the network `192.0.2.0/30`. -/
theorem expandCIDR_spec_witness :
    maskVal 4 30 3221225984 = 3221225984 ∧
    (∃ vals : List Nat,
      expandCIDR 4 30 3221225984 "192.0.2.0/30" =
        vals.map (fun v => { ip := some v, origin := "192.0.2.0/30", type := HostType.IP }) ∧
      vals.length ≤ 65536 ∧
      (∀ v ∈ vals, cidrContains 4 30 3221225984 v = true) ∧
      List.Chain' (· < ·) vals ∧
      vals.head? = some 3221225984) :=
  ⟨by decide, expandCIDR_spec 4 30 3221225984 "192.0.2.0/30" (by decide)⟩

/-! ## Theorems: the seed enumerator -/

theorem candFrom_succ_even (low high i n : Nat) (hi : i % 2 = 0) :
    candFrom low high i (n + 1) = ipDecVal low :: candFrom (ipDecVal low) high (i + 1) n := by
  simp [candFrom, hi]

theorem candFrom_succ_odd (low high i n : Nat) (hi : i % 2 = 1) :
    candFrom low high i (n + 1) = (high + 1) :: candFrom low (high + 1) (i + 1) n := by
  simp [candFrom, show ¬ i % 2 = 0 by omega]

/-- Under no upward overflow and below the loop-counter bound, the
goroutine loop considers exactly the `candFrom` alternation, emits exactly
its `isValidIP`-filtered image — so a rejected candidate costs nothing but
its slot — and does not stop by itself. -/
theorem iterateAddrAux_spec (w : Nat) (origin : String) :
    ∀ n low high i, high + n < 2 ^ (8 * w) → i + n ≤ maxInt →
      iterateAddrAux w origin low high i n =
        (candFrom low high i n,
          ((candFrom low high i n).filter (isValidIP w)).map
            (fun v => { ip := some v, origin := origin, type := HostType.IP }),
          false) := by
  intro n
  induction n with
  | zero =>
    intro low high i _ _
    simp [iterateAddrAux, candFrom]
  | succ n ih =>
    intro low high i hov hi
    have hilt : i < maxInt := by omega
    by_cases hpar : i % 2 = 0
    · have hrest := ih (ipDecVal low) high (i + 1) (by omega) (by omega)
      rw [candFrom_succ_even low high i n hpar]
      simp only [iterateAddrAux, if_pos hilt, if_pos hpar, hrest, List.filter_cons]
      by_cases hval : isValidIP w (ipDecVal low) <;> simp [hval]
    · have hnext : nextIPVal w high true = some (high + 1) := by
        simp [nextIPVal]
        omega
      have hrest := ih low (high + 1) (i + 1) (by omega) (by omega)
      rw [candFrom_succ_odd low high i n (by omega)]
      simp only [iterateAddrAux, if_pos hilt, if_neg hpar, hnext, hrest, List.filter_cons]
      by_cases hval : isValidIP w (high + 1) <;> simp [hval]

theorem ipDecVal_iterate_of_le {s : Nat} : ∀ {k : Nat}, k ≤ s → ipDecVal^[k] s = s - k := by
  intro k
  induction k with
  | zero => simp
  | succ k ih =>
    intro hk
    rw [Function.iterate_succ_apply', ih (by omega), ipDecVal]
    rw [if_neg (by omega)]
    omega

theorem candFrom_even_get (k : Nat) :
    ∀ low high i n, i % 2 = 0 → 2 * k + 1 < n →
      (candFrom low high i n)[2 * k]? = some (ipDecVal^[k + 1] low) ∧
      (candFrom low high i n)[2 * k + 1]? = some (high + (k + 1)) := by
  induction k with
  | zero =>
    intro low high i n hi hn
    obtain ⟨n2, rfl⟩ : ∃ n2, n = n2 + 2 := ⟨n - 2, by omega⟩
    rw [show n2 + 2 = (n2 + 1) + 1 by omega, candFrom_succ_even low high i (n2 + 1) hi,
      candFrom_succ_odd (ipDecVal low) high (i + 1) n2 (by omega)]
    simp
  | succ k ih =>
    intro low high i n hi hn
    obtain ⟨n2, rfl⟩ : ∃ n2, n = n2 + 2 := ⟨n - 2, by omega⟩
    rw [show n2 + 2 = (n2 + 1) + 1 by omega, candFrom_succ_even low high i (n2 + 1) hi,
      candFrom_succ_odd (ipDecVal low) high (i + 1) n2 (by omega)]
    obtain ⟨iha, ihb⟩ := ih (ipDecVal low) (high + 1) (i + 2) n2 (by omega) (by omega)
    constructor
    · rw [show 2 * (k + 1) = 2 * k + 1 + 1 by omega, List.getElem?_cons_succ,
        List.getElem?_cons_succ, iha, ← Function.iterate_succ_apply]
    · rw [show 2 * (k + 1) + 1 = 2 * k + 1 + 1 + 1 by omega, List.getElem?_cons_succ,
        List.getElem?_cons_succ, ihb]
      congr 1
      omega

/-- C5: the seed enumerator emits the seed first, unconditionally; within
the bounds where the arithmetic stays in the address width, the `2k`-th and
`(2k+1)`-th candidates considered before the `isValidIP` filter are
`s - (k+1)` and `s + (k+1)`; and the emitted stream after the seed is
exactly the `isValidIP`-filtered candidate sequence, so a rejected
candidate is skipped without disturbing either cursor. -/
theorem iterateAddr_seed_and_candidates (w : Nat) (origin : String) (s n k : Nat)
    (hov : s + n < 2 ^ (8 * w)) (hn : n ≤ maxInt) (hk : 2 * k + 1 < n) (hs : k + 1 ≤ s) :
    (IterateAddr w origin s n).1.head? =
        some { ip := some s, origin := origin, type := HostType.IP } ∧
    (iterateAddrAux w origin s s 0 n).1[2 * k]? = some (s - (k + 1)) ∧
    (iterateAddrAux w origin s s 0 n).1[2 * k + 1]? = some (s + (k + 1)) ∧
    (IterateAddr w origin s n).1 =
      { ip := some s, origin := origin, type := HostType.IP } ::
        ((iterateAddrAux w origin s s 0 n).1.filter (isValidIP w)).map
          (fun v => { ip := some v, origin := origin, type := HostType.IP }) := by
  have hspec := iterateAddrAux_spec w origin n s s 0 hov (by omega)
  obtain ⟨hg1, hg2⟩ := candFrom_even_get k s s 0 n (by omega) hk
  refine ⟨rfl, ?_, ?_, ?_⟩
  · rw [hspec]
    simpa [ipDecVal_iterate_of_le hs] using hg1
  · rw [hspec]
    exact hg2
  · simp [IterateAddr, hspec]

/-- Witness for C5 at seed `192.0.2.50` (value 3221226034), five loop
iterations, `k = 1`. -/
theorem iterateAddr_seed_and_candidates_witness :
    (3221226034 + 5 < 2 ^ (8 * 4) ∧ 5 ≤ maxInt ∧ 2 * 1 + 1 < 5 ∧ 1 + 1 ≤ 3221226034) ∧
    ((IterateAddr 4 "192.0.2.50" 3221226034 5).1.head? =
        some { ip := some 3221226034, origin := "192.0.2.50", type := HostType.IP } ∧
      (iterateAddrAux 4 "192.0.2.50" 3221226034 3221226034 0 5).1[2 * 1]? =
        some (3221226034 - (1 + 1)) ∧
      (iterateAddrAux 4 "192.0.2.50" 3221226034 3221226034 0 5).1[2 * 1 + 1]? =
        some (3221226034 + (1 + 1)) ∧
      (IterateAddr 4 "192.0.2.50" 3221226034 5).1 =
        { ip := some 3221226034, origin := "192.0.2.50", type := HostType.IP } ::
          ((iterateAddrAux 4 "192.0.2.50" 3221226034 3221226034 0 5).1.filter (isValidIP 4)).map
            (fun v => { ip := some v, origin := "192.0.2.50", type := HostType.IP })) :=
  ⟨⟨by decide, by decide, by decide, by decide⟩,
    iterateAddr_seed_and_candidates 4 "192.0.2.50" 3221226034 5 1
      (by decide) (by decide) (by decide) (by decide)⟩

/-- C9 (amended): the seed enumerator never stops by itself as long as the
upward cursor stays inside the address width and the loop counter stays
below `math.MaxInt`; it stops by itself when the upward `NextIP` overflows
the width (a panic — see the counterexample) or after `math.MaxInt`
iterations. -/
theorem iterateAddr_no_self_termination (w : Nat) (origin : String) (s n : Nat)
    (hov : s + n < 2 ^ (8 * w)) (hn : n ≤ maxInt) :
    (IterateAddr w origin s n).2 = false := by
  have hspec := iterateAddrAux_spec w origin n s s 0 hov (by omega)
  simp [IterateAddr, hspec]

/-- Witness for the amended C9: three iterations from seed `0.0.0.100`. -/
theorem iterateAddr_no_self_termination_witness :
    (100 + 3 < 2 ^ (8 * 4) ∧ 3 ≤ maxInt) ∧ (IterateAddr 4 "0.0.0.100" 100 3).2 = false :=
  ⟨⟨by decide, by decide⟩,
    iterateAddr_no_self_termination 4 "0.0.0.100" 100 3 (by decide) (by decide)⟩

/-- Counterexample to C9 as stated: seeded at the all-ones 16-byte address
(a valid `net.ParseIP` output), the second loop iteration increments the
all-ones address, `NextIP` panics on the negative-length pad, and the
stream ends on its own after the seed emission — the consumer never
cancelled anything. -/
theorem iterateAddr_self_terminates_at_allones :
    (IterateAddr 16 "ffff:ffff:ffff:ffff:ffff:ffff:ffff:ffff"
      (2 ^ 128 - 1) 2).2 = true := by
  decide

/-! ## Theorems: server-name indication (C3) -/

/-- Counterexample to C3 as stated: `192.0.2.1` is classified as an IP-kind
target by `ParseHost`, yet the probe's server name for it is the literal
itself, not the empty string — the dotted quad matches the domain grammar
that actually selects the server name. -/
theorem scanSNI_ip_literal_counterexample :
    (ParseHost "192.0.2.1").map Host.type = some HostType.IP ∧
    (ParseHost "192.0.2.1").map Host.origin = some "192.0.2.1" ∧
    ValidateDomainName "192.0.2.1" = true ∧
    scanSNI "192.0.2.1" = "192.0.2.1" ∧
    ¬ scanSNI "192.0.2.1" = "" := by
  refine ⟨by decide, by decide, by decide, by decide, by decide⟩

/-- C3 (amended): the server name is `origin` exactly when `origin` matches
the domain grammar, so every Domain-kind target sends its origin, and an
IP-kind target sends the empty server name only when its origin fails the
grammar (IPv4 dotted quads do not fail it; see the counterexample). -/
theorem scanSNI_of_parseHost (s : String) (h : Host) (hp : ParseHost s = some h) :
    (h.type = HostType.Domain → scanSNI h.origin = h.origin) ∧
    (h.type = HostType.IP → ValidateDomainName h.origin = false → scanSNI h.origin = "") := by
  simp only [ParseHost] at hp
  constructor
  · intro hd
    rcases hip : parseIPv4 (trimChars s) with _ | v <;> simp only [hip] at hp
    · split at hp
      · simp only [Option.some.injEq] at hp
        subst hp
        simp at hd
      · split at hp
        · rename_i hvd
          simp only [Option.some.injEq] at hp
          subst hp
          simp only [scanSNI]
          rw [if_pos hvd]
        · exact Option.noConfusion hp
    · simp only [Option.some.injEq] at hp
      subst hp
      simp at hd
  · intro hi hvd
    rw [scanSNI, if_neg (by simp [hvd])]

/-- Witness for the amended C3 at the domain `example.com`. -/
theorem scanSNI_of_parseHost_witness :
    ParseHost "example.com" =
      some { ip := none, origin := "example.com", type := HostType.Domain } ∧
    ((HostType.Domain = HostType.Domain → scanSNI "example.com" = "example.com") ∧
      (HostType.Domain = HostType.IP → ValidateDomainName "example.com" = false →
        scanSNI "example.com" = "")) :=
  ⟨by decide,
    scanSNI_of_parseHost "example.com"
      { ip := none, origin := "example.com", type := HostType.Domain } (by decide)⟩

/-! ## Theorems: the classifier's side-channel argument (C2) -/

/-- Counterexample to C2 as stated: for a certificate carrying two DNS
names, the Cloudflare exclusion receives the full comma-joined string.
With a trace oracle answering `true` exactly on the joined string and
`false` on the first SAN, the source classifier rejects the probe while
the first-SAN classifier of the spec accepts it. -/
theorem feasibility_joined_domain_counterexample :
    rTwoSAN.CertDomain = "a.com,b.com" ∧
    firstSAN rTwoSAN.CertDomain = "a.com" ∧
    envTwoSAN.cloudflareTrace (firstSAN rTwoSAN.CertDomain) = false ∧
    envTwoSAN.cloudflareTrace rTwoSAN.CertDomain = true ∧
    rTwoSAN.Feasible = false ∧
    IsRealityFeasibleSpec envTwoSAN false rTwoSAN = true := by
  refine ⟨by decide, by decide, by decide, by decide, by decide, by decide⟩

/-- C2 (amended): both side-channel checks of the classifier are applied to
the full comma-joined `CertDomain` string: environments that agree on their
Cloudflare and ping answers at that one string — whatever they answer on
the individual SANs — produce the same verdict. -/
theorem IsRealityFeasible_congr (env env' : ProbeEnv) (pingFlag : Bool) (sr : ScanResult)
    (hcf : env.cloudflareTrace sr.CertDomain = env'.cloudflareTrace sr.CertDomain)
    (hping : env.pingExit sr.CertDomain = env'.pingExit sr.CertDomain) :
    IsRealityFeasible env pingFlag sr = IsRealityFeasible env' pingFlag sr := by
  simp only [IsRealityFeasible, DetectCloudflareCDN, CheckDomainConnectivity, pingDomain,
    hcf, hping]

/-- Witness for the amended C2: the two concrete environments agree at the
joined string (and nowhere else beyond it) and get the same verdict. -/
theorem IsRealityFeasible_congr_witness :
    (envTwoSAN.cloudflareTrace rTwoSAN.CertDomain =
        envTwoSANAlt.cloudflareTrace rTwoSAN.CertDomain ∧
      envTwoSAN.pingExit rTwoSAN.CertDomain = envTwoSANAlt.pingExit rTwoSAN.CertDomain) ∧
    IsRealityFeasible envTwoSAN true rTwoSAN = IsRealityFeasible envTwoSANAlt true rTwoSAN :=
  ⟨⟨by decide, by decide⟩,
    IsRealityFeasible_congr envTwoSAN envTwoSANAlt true rTwoSAN (by decide) (by decide)⟩

/-! ## Theorems: the feasibility invariant (C1) -/

theorem prefix_append_ne_empty (p e : String) (hp : p.length ≠ 0) : p ++ e ≠ "" := by
  intro h
  have hlen := congrArg String.length h
  rw [String.length_append] at hlen
  rw [show String.length "" = 0 from rfl] at hlen
  omega

theorem IsRealityFeasible_eq_true (env : ProbeEnv) (pingFlag : Bool) (sr : ScanResult)
    (h : IsRealityFeasible env pingFlag sr = true) :
    sr.TLSVersion = "TLS 1.3" ∧ sr.ALPN = "h2" ∧ sr.Curve = "X25519" ∧
    sr.CertDomain ≠ "" ∧ sr.CertIssuer ≠ "" := by
  unfold IsRealityFeasible at h
  split at h
  · exact Bool.noConfusion h
  rename_i h1
  split at h
  · exact Bool.noConfusion h
  rename_i h2
  split at h
  · exact Bool.noConfusion h
  rename_i h3
  split at h
  · exact Bool.noConfusion h
  rename_i h4
  split at h
  · exact Bool.noConfusion h
  split at h
  · exact Bool.noConfusion h
  rename_i h6
  exact ⟨not_not.1 h1, not_not.1 h2, not_not.1 h3, h4, h6⟩

/-- Shape of the result on the success path: some record with empty error,
whose stored verdict is the classifier applied to that record. -/
theorem scanSingleIP_ok_shape (env : ProbeEnv) (pingFlag : Bool) (ip origin : String)
    (port : Nat) (htcp : env.tcpErr ip = none) (htls : env.tlsErr ip = none) :
    ∃ sr' : ScanResult, sr'.Error = "" ∧
      scanSingleIP env pingFlag ip origin port =
        { sr' with Feasible := IsRealityFeasible env pingFlag sr' } := by
  refine ⟨{ emptyResult ip origin port (env.geoCode ip) with
      ResponseTime := env.elapsedMs ip,
      TLSVersion := getTLSVersionString (env.version ip),
      ALPN := env.alpn ip,
      Curve := getCurveString (env.cipherSuite ip),
      CertDomain :=
        (match env.peerCerts ip with
          | [] => ""
          | cert :: _ =>
            if cert.dnsNames ≠ [] then joinComma cert.dnsNames
            else if cert.subjectCN ≠ "" then cert.subjectCN
            else ""),
      CertIssuer :=
        (match env.peerCerts ip with
          | [] => ""
          | cert :: _ =>
            if cert.issuerCN ≠ "" then cert.issuerCN
            else
              match cert.issuerOrgs with
              | o :: _ => o
              | [] => "") }, rfl, ?_⟩
  simp only [scanSingleIP, htcp, htls]

theorem scanSingleIP_inv (env : ProbeEnv) (pingFlag : Bool) (ip origin : String) (port : Nat) :
    ((scanSingleIP env pingFlag ip origin port).Feasible = true →
      (scanSingleIP env pingFlag ip origin port).Error = "" ∧
      (scanSingleIP env pingFlag ip origin port).TLSVersion = "TLS 1.3" ∧
      (scanSingleIP env pingFlag ip origin port).ALPN = "h2" ∧
      (scanSingleIP env pingFlag ip origin port).Curve = "X25519" ∧
      (scanSingleIP env pingFlag ip origin port).CertDomain ≠ "" ∧
      (scanSingleIP env pingFlag ip origin port).CertIssuer ≠ "") ∧
    ((scanSingleIP env pingFlag ip origin port).Error ≠ "" →
      (scanSingleIP env pingFlag ip origin port).Feasible = false) := by
  rcases htcp : env.tcpErr ip with _ | e
  · rcases htls : env.tlsErr ip with _ | e2
    · obtain ⟨sr', herr, heq⟩ := scanSingleIP_ok_shape env pingFlag ip origin port htcp htls
      rw [heq]
      constructor
      · intro hf
        have hf' : IsRealityFeasible env pingFlag sr' = true := hf
        have h5 := IsRealityFeasible_eq_true env pingFlag sr' hf'
        exact ⟨herr, h5.1, h5.2.1, h5.2.2.1, h5.2.2.2.1, h5.2.2.2.2⟩
      · intro he
        exact absurd herr he
    · constructor
      · intro hf
        rw [show (scanSingleIP env pingFlag ip origin port).Feasible = false by
          simp [scanSingleIP, emptyResult, htcp, htls]] at hf
        exact Bool.noConfusion hf
      · intro _
        simp [scanSingleIP, emptyResult, htcp, htls]
  · constructor
    · intro hf
      rw [show (scanSingleIP env pingFlag ip origin port).Feasible = false by
        simp [scanSingleIP, emptyResult, htcp]] at hf
      exact Bool.noConfusion hf
    · intro _
      simp [scanSingleIP, emptyResult, htcp]

/-- C1: every result emitted by a probe satisfies
`feasible → error = "" ∧ tls_version = "TLS 1.3" ∧ alpn = "h2" ∧
curve = "X25519" ∧ cert_sans ≠ "" ∧ cert_issuer ≠ ""`, no result with an
error is feasible, and the three failure paths — DNS resolution, TCP dial,
TLS handshake — each emit a result with `feasible = false` and a non-empty
error. -/
theorem scanTLS_feasible_invariant (env : ProbeEnv) (pingFlag : Bool) (port : Nat)
    (host : Host) :
    (∀ r ∈ ScanTLS env pingFlag port host,
      (r.Feasible = true →
        r.Error = "" ∧ r.TLSVersion = "TLS 1.3" ∧ r.ALPN = "h2" ∧ r.Curve = "X25519" ∧
        r.CertDomain ≠ "" ∧ r.CertIssuer ≠ "") ∧
      (r.Error ≠ "" → r.Feasible = false)) ∧
    (∀ e, host.type = HostType.Domain → env.resolve host.origin = Except.error e →
      ∃ r, ScanTLS env pingFlag port host = [r] ∧ r.Feasible = false ∧ r.Error ≠ "") ∧
    (∀ ip origin2, (env.tcpErr ip).isSome →
      (scanSingleIP env pingFlag ip origin2 port).Feasible = false ∧
      (scanSingleIP env pingFlag ip origin2 port).Error ≠ "") ∧
    (∀ ip origin2, env.tcpErr ip = none → (env.tlsErr ip).isSome →
      (scanSingleIP env pingFlag ip origin2 port).Feasible = false ∧
      (scanSingleIP env pingFlag ip origin2 port).Error ≠ "") := by
  obtain ⟨hip, horigin, htype⟩ := host
  refine ⟨?_, ?_, ?_, ?_⟩
  · intro r hr
    cases htype with
    | IP =>
      cases hip with
      | none => simp [ScanTLS] at hr
      | some v =>
        simp only [ScanTLS, List.mem_singleton] at hr
        subst hr
        exact scanSingleIP_inv env pingFlag (env.ipRender v) horigin port
    | CIDR =>
      simp only [ScanTLS, List.mem_singleton] at hr
      subst hr
      refine ⟨fun hf => absurd hf (by simp [emptyResult]), fun _ => by simp [emptyResult]⟩
    | Domain =>
      rcases hres : env.resolve horigin with e | ips
      · simp only [ScanTLS, hres, List.mem_singleton] at hr
        subst hr
        refine ⟨fun hf => absurd hf (by simp [emptyResult]), fun _ => by simp [emptyResult]⟩
      · simp only [ScanTLS, hres, List.mem_map] at hr
        obtain ⟨ip, _, rfl⟩ := hr
        exact scanSingleIP_inv env pingFlag ip horigin port
  · intro e hd hres
    simp only at hd
    subst hd
    simp only [ScanTLS, hres]
    refine ⟨_, rfl, by simp [emptyResult], ?_⟩
    exact prefix_append_ne_empty "域名解析失败: " e (by decide)
  · intro ip origin2 hsome
    obtain ⟨e, he⟩ := Option.isSome_iff_exists.1 hsome
    refine ⟨by simp [scanSingleIP, emptyResult, he], ?_⟩
    rw [show (scanSingleIP env pingFlag ip origin2 port).Error = "TCP连接失败: " ++ e by
      simp [scanSingleIP, emptyResult, he]]
    exact prefix_append_ne_empty "TCP连接失败: " e (by decide)
  · intro ip origin2 hnone hsome
    obtain ⟨e, he⟩ := Option.isSome_iff_exists.1 hsome
    refine ⟨by simp [scanSingleIP, emptyResult, hnone, he], ?_⟩
    rw [show (scanSingleIP env pingFlag ip origin2 port).Error = "TLS握手失败: " ++ e by
      simp [scanSingleIP, emptyResult, hnone, he]]
    exact prefix_append_ne_empty "TLS握手失败: " e (by decide)

/-- Witness for C1: a concrete environment in which the probe of one IP
target is feasible, so the invariant's consequent is realised. -/
theorem scanTLS_feasible_invariant_witness :
    (scanSingleIP envBase true "5" "good.example.test" 443 ∈
      ScanTLS envBase true 443
        { ip := some 5, origin := "good.example.test", type := HostType.IP }) ∧
    (scanSingleIP envBase true "5" "good.example.test" 443).Feasible = true ∧
    ((scanSingleIP envBase true "5" "good.example.test" 443).Error = "" ∧
      (scanSingleIP envBase true "5" "good.example.test" 443).TLSVersion = "TLS 1.3" ∧
      (scanSingleIP envBase true "5" "good.example.test" 443).ALPN = "h2" ∧
      (scanSingleIP envBase true "5" "good.example.test" 443).Curve = "X25519" ∧
      (scanSingleIP envBase true "5" "good.example.test" 443).CertDomain ≠ "" ∧
      (scanSingleIP envBase true "5" "good.example.test" 443).CertIssuer ≠ "") :=
  ⟨by decide, by decide,
    ((scanTLS_feasible_invariant envBase true 443
        { ip := some 5, origin := "good.example.test", type := HostType.IP }).1
      (scanSingleIP envBase true "5" "good.example.test" 443) (by decide)).1 (by decide)⟩

/-! ## Theorems: the quota of the result sink (C7) -/

theorem processLoop_quota (M : Nat) :
    ∀ (rs : List ScanResult) (tot fez errc : Nat),
      fez < M →
      (∀ r ∈ rs, r.Feasible = true → r.Error = "") →
      M ≤ fez + rs.countP (fun r => r.Feasible) →
      (∃ kk, (processLoop true M tot fez errc rs).1 = rs.take kk) ∧
      (processLoop true M tot fez errc rs).1.countP (fun r => r.Feasible) = M - fez ∧
      (∃ last, (processLoop true M tot fez errc rs).1.getLast? = some last ∧
        last.Feasible = true) := by
  intro rs
  induction rs with
  | nil =>
    intro tot fez errc hfez _ hcount
    simp [List.countP_nil] at hcount
    omega
  | cons r rest ih =>
    intro tot fez errc hfez hwf hcount
    by_cases herr : r.Error ≠ ""
    · have hrf : r.Feasible = false := by
        rcases hb : r.Feasible with _ | _
        · rfl
        · exact absurd (hwf r (by simp) hb) herr
      have hcount' : M ≤ fez + rest.countP (fun r => r.Feasible) := by
        rw [List.countP_cons, hrf] at hcount
        simpa using hcount
      obtain ⟨⟨kk, hkk⟩, hcnt, last, hlast, hfeas⟩ :=
        ih (tot + 1) fez (errc + 1) hfez (fun x hx => hwf x (by simp [hx])) hcount'
      simp only [processLoop, if_pos herr]
      refine ⟨⟨kk + 1, by simp [hkk]⟩, ?_, last, ?_, hfeas⟩
      · rw [List.countP_cons, hrf]
        simpa using hcnt
      · rcases hout : (processLoop true M (tot + 1) fez (errc + 1) rest).1 with _ | ⟨o, os⟩
        · rw [hout] at hlast
          simp at hlast
        · rw [hout] at hlast
          rw [List.getLast?_cons_cons]
          exact hlast
    · rw [not_not] at herr
      by_cases hrf : r.Feasible = true
      · by_cases hstop : M ≤ fez + 1
        · simp only [processLoop, if_neg (not_not_intro herr), if_pos hrf,
            if_pos (⟨trivial, hstop⟩ : True ∧ M ≤ fez + 1)]
          refine ⟨⟨1, by simp⟩, ?_, r, rfl, hrf⟩
          rw [List.countP_cons, hrf]
          simp
          omega
        · have hcount' : M ≤ (fez + 1) + rest.countP (fun r => r.Feasible) := by
            rw [List.countP_cons, hrf] at hcount
            simp at hcount
            omega
          obtain ⟨⟨kk, hkk⟩, hcnt, last, hlast, hfeas⟩ :=
            ih (tot + 1) (fez + 1) errc (by omega) (fun x hx => hwf x (by simp [hx])) hcount'
          simp only [processLoop, if_neg (not_not_intro herr), if_pos hrf,
            if_neg (fun hand : True ∧ M ≤ fez + 1 => hstop hand.2)]
          refine ⟨⟨kk + 1, by simp [hkk]⟩, ?_, last, ?_, hfeas⟩
          · rw [List.countP_cons, hrf]
            simp
            omega
          · rcases hout : (processLoop true M (tot + 1) (fez + 1) errc rest).1 with _ | ⟨o, os⟩
            · rw [hout] at hlast
              simp at hlast
            · rw [hout] at hlast
              rw [List.getLast?_cons_cons]
              exact hlast
      · have hrf' : r.Feasible = false := by
          rcases hb : r.Feasible with _ | _
          · rfl
          · exact absurd hb hrf
        have hcount' : M ≤ fez + rest.countP (fun r => r.Feasible) := by
          rw [List.countP_cons, hrf'] at hcount
          simpa using hcount
        obtain ⟨⟨kk, hkk⟩, hcnt, last, hlast, hfeas⟩ :=
          ih (tot + 1) fez errc hfez (fun x hx => hwf x (by simp [hx])) hcount'
        simp only [processLoop, if_neg (not_not_intro herr), if_neg hrf]
        refine ⟨⟨kk + 1, by simp [hkk]⟩, ?_, last, ?_, hfeas⟩
        · rw [List.countP_cons, hrf']
          simpa using hcnt
        · rcases hout : (processLoop true M (tot + 1) fez errc rest).1 with _ | ⟨o, os⟩
          · rw [hout] at hlast
            simp at hlast
          · rw [hout] at hlast
            rw [List.getLast?_cons_cons]
            exact hlast

/-- C7: with stop-on-quota enabled and a quota `M ≥ 1`, the sink processes
the stream in order and writes exactly a prefix of it that ends with the
record whose feasible flag brings the feasible count to `M`; no later
record is written and the output carries exactly `M` feasible records —
for every well-formed stream (feasible results carry no error, which C1
guarantees for probe output) containing at least `M` feasible results. -/
theorem processResults_quota (M : Nat) (rs : List ScanResult) (hM : 1 ≤ M)
    (hwf : ∀ r ∈ rs, r.Feasible = true → r.Error = "")
    (hcount : M ≤ rs.countP (fun r => r.Feasible)) :
    (∃ k, (ProcessResults true M rs).1 = rs.take k) ∧
    (ProcessResults true M rs).1.countP (fun r => r.Feasible) = M ∧
    (∃ last, (ProcessResults true M rs).1.getLast? = some last ∧ last.Feasible = true) := by
  have h := processLoop_quota M rs 0 0 0 (by omega) hwf (by omega)
  simpa [ProcessResults] using h

/-- Witness for C7: a five-record stream with feasible records in positions
2 and 4 and quota 2 — the sink stops right after the fourth record. -/
theorem processResults_quota_witness :
    (1 ≤ 2 ∧
      (∀ r ∈ [rInfeasible, rFeasibleA, rErrored, rFeasibleB, rInfeasible],
        r.Feasible = true → r.Error = "") ∧
      2 ≤ ([rInfeasible, rFeasibleA, rErrored, rFeasibleB,
        rInfeasible].countP (fun r => r.Feasible))) ∧
    ((∃ k, (ProcessResults true 2 [rInfeasible, rFeasibleA, rErrored, rFeasibleB,
        rInfeasible]).1 =
      [rInfeasible, rFeasibleA, rErrored, rFeasibleB, rInfeasible].take k) ∧
    (ProcessResults true 2 [rInfeasible, rFeasibleA, rErrored, rFeasibleB,
        rInfeasible]).1.countP (fun r => r.Feasible) = 2 ∧
    (∃ last, (ProcessResults true 2 [rInfeasible, rFeasibleA, rErrored, rFeasibleB,
        rInfeasible]).1.getLast? = some last ∧ last.Feasible = true)) :=
  ⟨⟨by decide, by decide, by decide⟩,
    processResults_quota 2 [rInfeasible, rFeasibleA, rErrored, rFeasibleB, rInfeasible]
      (by decide) (by decide) (by decide)⟩

/-! ## Theorems: CSV round trip (C8) -/

theorem splitOnChar_ne_nil (c : Char) (l : List Char) : splitOnChar c l ≠ [] := by
  induction l with
  | nil => simp [splitOnChar]
  | cons x xs ih =>
    rcases hs : splitOnChar c xs with _ | ⟨h0, t⟩
    · exact absurd hs ih
    · simp only [splitOnChar, hs]
      split <;> simp

theorem splitOnChar_of_not_mem {c : Char} {l : List Char} (h : c ∉ l) :
    splitOnChar c l = [l] := by
  induction l with
  | nil => rfl
  | cons x xs ih =>
    have hx : ¬ x = c := fun he => h (he ▸ List.mem_cons_self x xs)
    have ih' := ih (fun hm => h (List.mem_cons_of_mem x hm))
    simp [splitOnChar, ih', hx]

theorem splitOnChar_append_cons {c : Char} {l : List Char} (r : List Char) (h : c ∉ l) :
    splitOnChar c (l ++ c :: r) = l :: splitOnChar c r := by
  induction l with
  | nil =>
    rcases hs : splitOnChar c r with _ | ⟨h0, t⟩
    · exact absurd hs (splitOnChar_ne_nil c r)
    · simp [splitOnChar, hs]
  | cons x xs ih =>
    have hx : ¬ x = c := fun he => h (he ▸ List.mem_cons_self x xs)
    have ih' := ih (fun hm => h (List.mem_cons_of_mem x hm))
    rcases hs : splitOnChar c (xs ++ c :: r) with _ | ⟨h0, t⟩
    · exact absurd hs (splitOnChar_ne_nil c (xs ++ c :: r))
    · rw [hs] at ih'
      injection ih' with h1 h2
      show splitOnChar c (x :: (xs ++ c :: r)) = (x :: xs) :: splitOnChar c r
      simp only [splitOnChar, hs, if_neg hx]
      rw [h1, h2]

theorem splitOnChar_joinSep {c : Char} :
    ∀ fs : List (List Char), fs ≠ [] → (∀ f ∈ fs, c ∉ f) →
      splitOnChar c (joinSep [c] fs) = fs
  | [], h, _ => absurd rfl h
  | [f], _, hm => by
    simp only [joinSep]
    exact splitOnChar_of_not_mem (hm f (by simp))
  | f :: g :: t, _, hm => by
    rw [show joinSep [c] (f :: g :: t) = f ++ c :: joinSep [c] (g :: t) by
      simp [joinSep]]
    rw [splitOnChar_append_cons _ (hm f (by simp))]
    rw [splitOnChar_joinSep (g :: t) (by simp) (fun x hx => hm x (by simp [hx]))]

theorem mem_joinSep {x : Char} {sep : List Char} :
    ∀ {fs : List (List Char)}, x ∈ joinSep sep fs → x ∈ sep ∨ ∃ f ∈ fs, x ∈ f
  | [], h => by simp [joinSep] at h
  | [f], h => Or.inr ⟨f, by simp, by simpa [joinSep] using h⟩
  | f :: g :: t, h => by
    rw [show joinSep sep (f :: g :: t) = f ++ (sep ++ joinSep sep (g :: t)) by
      simp [joinSep]] at h
    rcases List.mem_append.1 h with h | h
    · exact Or.inr ⟨f, by simp, h⟩
    · rcases List.mem_append.1 h with h | h
      · exact Or.inl h
      · rcases mem_joinSep h with h | ⟨f', hf', hx⟩
        · exact Or.inl h
        · exact Or.inr ⟨f', by simp [hf'], hx⟩

theorem plainField_props {f : List Char} (h : plainField f = true) :
    (',' ∉ f) ∧ ('"' ∉ f) ∧ ('\r' ∉ f) ∧ ('\n' ∉ f) ∧
    (∀ c, f.head? = some c → isUnicodeSpaceChar c = false) ∧ f ≠ ['\\', '.'] := by
  simp only [plainField, Bool.and_eq_true, Bool.not_eq_true', decide_eq_false_iff_not,
    beq_eq_false_iff_ne, ne_eq] at h
  obtain ⟨⟨⟨⟨⟨⟨_, h1⟩, h2⟩, h3⟩, h4⟩, h5⟩, h6⟩ := h
  refine ⟨h1, h2, h3, h4, ?_, h6⟩
  intro c hc
  rw [hc] at h5
  simpa using h5

theorem fieldNeedsQuotes_of_plain {f : List Char} (h : plainField f = true) :
    fieldNeedsQuotes f = false := by
  obtain ⟨h1, h2, h3, h4, h5, h6⟩ := plainField_props h
  by_cases hnil : f = []
  · simp [fieldNeedsQuotes, hnil]
  · rw [fieldNeedsQuotes, if_neg hnil, if_neg h6,
      if_neg (by simp [h1, h2, h3, h4])]
    rcases hh : f.head? with _ | c
    · simp
    · simp [hh, h5 c hh]

theorem csvField_of_plain {f : List Char} (h : plainField f = true) : csvField f = f := by
  rw [csvField, fieldNeedsQuotes_of_plain h]
  simp

theorem csvLine_of_plain {fs : List (List Char)} (h : ∀ f ∈ fs, plainField f = true) :
    csvLine fs = joinSep [','] fs := by
  rw [csvLine,
    show fs.map csvField = fs.map id from
      List.map_congr_left fun f hf => csvField_of_plain (h f hf),
    List.map_id]

theorem csvLine_no_ctrl {fs : List (List Char)} (h : ∀ f ∈ fs, plainField f = true) :
    '\n' ∉ csvLine fs ∧ '\r' ∉ csvLine fs := by
  rw [csvLine_of_plain h]
  constructor <;> intro hmem
  · rcases mem_joinSep hmem with hc | ⟨f, hf, hx⟩
    · simp at hc
    · exact (plainField_props (h f hf)).2.2.2.1 hx
  · rcases mem_joinSep hmem with hc | ⟨f, hf, hx⟩
    · simp at hc
    · exact (plainField_props (h f hf)).2.2.1 hx

theorem splitOnChar_newline_flatten :
    ∀ lines : List (List Char), (∀ l ∈ lines, ¬ '\n' ∈ l) →
      splitOnChar '\n' ((lines.map fun l => l ++ ['\n']).flatten) = lines ++ [[]]
  | [], _ => by simp [splitOnChar]
  | l :: ls, h => by
    simp only [List.map_cons, List.flatten_cons, List.append_assoc, List.singleton_append]
    rw [splitOnChar_append_cons _ (h l (by simp)),
      splitOnChar_newline_flatten ls (fun x hx => h x (by simp [hx]))]
    simp

theorem mem_of_getLast_eq_some {l : List Char} {c : Char} (h : l.getLast? = some c) :
    c ∈ l := by
  have hx : c ∈ l.getLast? := by rw [h]; rfl
  obtain ⟨hne, rfl⟩ := List.mem_getLast?_eq_getLast hx
  exact List.getLast_mem hne

theorem dropTrailingCR_of_not_mem {l : List Char} (h : '\r' ∉ l) :
    dropTrailingCR l = l := by
  rw [dropTrailingCR, if_neg (fun hg => h (mem_of_getLast_eq_some hg))]

theorem scanLines_of_lines (lines : List (List Char))
    (h : ∀ l ∈ lines, '\n' ∉ l ∧ '\r' ∉ l) :
    scanLines ((lines.map fun l => l ++ ['\n']).flatten) = lines := by
  simp only [scanLines]
  rw [splitOnChar_newline_flatten lines (fun l hl => (h l hl).1), List.getLast?_concat,
    if_pos rfl, List.dropLast_concat,
    show lines.map dropTrailingCR = lines.map id from
      List.map_congr_left fun l hl => dropTrailingCR_of_not_mem (h l hl).2,
    List.map_id]

/-- C8 (amended): writing a result list and re-parsing with
`loadFeasibleResults` returns exactly the feasible records among them, with
field-equal values, provided every rendered field is plain (no comma,
quote, CR/LF, or leading space) — the comma-split loader is only lossless
on unquoted fields, and it keeps feasible records only. -/
theorem csv_roundtrip_plain (results : List ScanResult) (ts : String)
    (h : ∀ r ∈ results, ∀ f ∈ recordFields r ts, plainField f = true) :
    loadFeasibleResults (writeCSVContent (results.map fun r => recordFields r ts)) =
      (results.filter fun r => r.Feasible).map fun r => recordFields r ts := by
  have hcontent : writeCSVContent (results.map fun r => recordFields r ts) =
      ((csvLine headerFields :: (results.map fun r => csvLine (recordFields r ts))).map
        fun l => l ++ ['\n']).flatten := by
    simp only [writeCSVContent, List.map_cons, List.flatten_cons, List.map_map]
    rfl
  have hlineprops : ∀ l ∈ csvLine headerFields ::
      (results.map fun r => csvLine (recordFields r ts)), '\n' ∉ l ∧ '\r' ∉ l := by
    intro l hl
    rcases List.mem_cons.1 hl with rfl | hl
    · exact ⟨by decide, by decide⟩
    · obtain ⟨r, hr, rfl⟩ := List.mem_map.1 hl
      exact csvLine_no_ctrl (h r hr)
  simp only [loadFeasibleResults]
  rw [hcontent, scanLines_of_lines _ hlineprops, List.drop_succ_cons, List.drop_zero,
    List.map_map,
    show ((fun l => splitOnChar ',' l) ∘ fun r => csvLine (recordFields r ts)) =
        (fun r : ScanResult => splitOnChar ',' (csvLine (recordFields r ts))) from rfl,
    show results.map (fun r => splitOnChar ',' (csvLine (recordFields r ts))) =
        results.map (fun r => recordFields r ts) from
      List.map_congr_left fun r hr => by
        rw [csvLine_of_plain (h r hr),
          splitOnChar_joinSep (recordFields r ts) (by simp [recordFields])
            (fun f hf => (plainField_props (h r hr f hf)).1)],
    List.filter_map]
  congr 1
  apply List.filter_congr
  intro r _
  show (decide (10 ≤ (recordFields r ts).length) &&
      decide ((recordFields r ts).getD 9 [] = "true".toList)) = r.Feasible
  rcases hb : r.Feasible with _ | _ <;> simp [recordFields, hb]

set_option maxRecDepth 8192 in
/-- Witness for the amended C8: two plain-field records, one feasible; the
loader returns exactly the feasible one, field-equal. -/
theorem csv_roundtrip_plain_witness :
    (∀ r ∈ [rFeasibleA, rInfeasible], ∀ f ∈ recordFields r tsW, plainField f = true) ∧
    loadFeasibleResults
        (writeCSVContent ([rFeasibleA, rInfeasible].map fun r => recordFields r tsW)) =
      (([rFeasibleA, rInfeasible].filter fun r => r.Feasible).map
        fun r => recordFields r tsW) :=
  ⟨by decide, csv_roundtrip_plain [rFeasibleA, rInfeasible] tsW (by decide)⟩

set_option maxRecDepth 8192 in
/-- Counterexample to C8 as stated: one feasible record whose `CERT_DOMAIN`
is a two-SAN comma join.  The writer quotes the field, but the loader's
naive comma split shifts the columns (part 9 becomes `GEO_CODE`), so
re-parsing the one-record file yields no records at all instead of one
field-equal record. -/
theorem csv_roundtrip_comma_counterexample :
    rComma.Feasible = true ∧
    [recordFields rComma tsW].length = 1 ∧
    loadFeasibleResults (writeCSVContent [recordFields rComma tsW]) = [] := by
  exact ⟨by decide, by decide, by decide⟩

end GetRealityDomain
